import Mathlib

/-!
Verification of the transactional message-passing core of the Bento
streaming pipeline engine.

The sync source wrapper (`Reader.loop` in `lib/input/reader.go`) and the
sync sink wrapper (`LineWriter.loop` in `lib/output/line_writer.go`) are
shallowly embedded as deterministic fuel-indexed interpreters.  All
interaction with the adapter and with the surrounding pipeline (connect
results, read results, throttle outcomes, channel sends, resolutions,
shutdown signals) is supplied by an environment of oracle functions, and
each run produces the sequence of observable actions the wrapper performed.

The Batcher and the copy-on-write Part model are not present in the source
tree (only their tests are), so they are modelled from the specification;
their definitions say so in their doc comments.
-/

/-- Adapter / pipeline error values distinguished by the wrappers
(`types.ErrNotConnected`, `types.ErrTimeout`, `types.ErrTypeClosed`,
and everything else as `generic`). -/
inductive Err where
  | notConnected
  | timeout
  | typeClosed
  | generic (code : Nat)
  deriving DecidableEq

/-- Result of one `reader.Read()` call: a successful non-nil message
(identified by a token), a nil message with nil error, or an error. -/
inductive ReadRes where
  | msg (id : Nat)
  | nilMsg
  | err (e : Err)
  deriving DecidableEq

/-- Result of the source wrapper's wait on its responses channel:
a response carrying the resolution error and the SkipAck flag, the
responses channel being closed, or the shutdown signal firing first. -/
inductive RespRes where
  | res (e : Option Err) (skipAck : Bool)
  | chanClosed
  | closeFired
  deriving DecidableEq

/-- Environment of the sync source wrapper: the i-th answer of each kind of
external interaction.  `running i` is the i-th load of the atomic running
flag; `emit i` tells whether the i-th transaction send was delivered
(`false` means the shutdown channel fired instead); `resp i` is the i-th
wait on the responses channel. -/
structure REnv where
  running : Nat → Bool
  connect : Nat → Option Err
  read : Nat → ReadRes
  retry : Nat → Bool
  emit : Nat → Bool
  resp : Nat → RespRes

/-- Interaction counters of a source wrapper run. -/
structure RSt where
  nRun : Nat
  nConn : Nat
  nRead : Nat
  nRetry : Nat
  nEmit : Nat
  nResp : Nat
  deriving DecidableEq

/-- Observable actions of the sync source wrapper: adapter calls
(`connect`, `read`, `ack`), throttle calls (`retryCall`, `reset`),
transaction emission, the wait for a resolution, and the closing of the
output transactions channel on return. -/
inductive RAct where
  | connect (r : Option Err)
  | read (r : ReadRes)
  | retryCall (ok : Bool)
  | reset
  | emit (tid : Nat)
  | await (r : RespRes)
  | ack (e : Option Err)
  | closeTrans
  deriving DecidableEq

/-- Initial interaction counters. -/
def initRSt : RSt := ⟨0, 0, 0, 0, 0, 0⟩

/-- The initial connect loop of `Reader.loop`: repeatedly `Connect()`;
`ErrTypeClosed` returns, any other error goes through `Throttle.Retry()`
(returning when the throttle reports shutdown), success calls
`Throttle.Reset()` and breaks.  Outcome: `none` = out of fuel,
`some false` = the wrapper returns, `some true` = connected. -/
def rConnectLoop (env : REnv) : Nat → RSt → List RAct × RSt × Option Bool
  | 0, st => ([], st, none)
  | fuel+1, st =>
    let e := env.connect st.nConn
    let st1 := { st with nConn := st.nConn + 1 }
    match e with
    | none => ([RAct.connect none, RAct.reset], st1, some true)
    | some Err.typeClosed => ([RAct.connect (some Err.typeClosed)], st1, some false)
    | some e' =>
      let ok := env.retry st1.nRetry
      let st2 := { st1 with nRetry := st1.nRetry + 1 }
      if ok then
        let r := rConnectLoop env fuel st2
        (RAct.connect (some e') :: RAct.retryCall true :: r.1, r.2)
      else ([RAct.connect (some e'), RAct.retryCall false], st2, some false)

/-- The inner reconnect loop of `Reader.loop`, entered when `Read()` returns
`ErrNotConnected`: while the running flag holds, `Connect()`; on
`ErrTypeClosed` return, on other errors `Throttle.Retry()`; on success
immediately `Read()` again, staying in the loop only if that read reports
`ErrNotConnected`, otherwise `Throttle.Reset()` and break with the read's
result.  `cur` is the current error value carried by the loop (used when the
running flag drops and the loop exits with it).  Outcome: `none` = out of
fuel, `some none` = the wrapper returns, `some (some rr)` = the loop exits
with read result `rr`. -/
def rReconnLoop (env : REnv) : Nat → RSt → ReadRes → List RAct × RSt × Option (Option ReadRes)
  | 0, st, _ => ([], st, none)
  | fuel+1, st, cur =>
    let run := env.running st.nRun
    let st1 := { st with nRun := st.nRun + 1 }
    if run then
      let e := env.connect st1.nConn
      let st2 := { st1 with nConn := st1.nConn + 1 }
      match e with
      | some Err.typeClosed => ([RAct.connect (some Err.typeClosed)], st2, some none)
      | some e' =>
        let ok := env.retry st2.nRetry
        let st3 := { st2 with nRetry := st2.nRetry + 1 }
        if ok then
          let r := rReconnLoop env fuel st3 (ReadRes.err e')
          (RAct.connect (some e') :: RAct.retryCall true :: r.1, r.2)
        else ([RAct.connect (some e'), RAct.retryCall false], st3, some none)
      | none =>
        let rr := env.read st2.nRead
        let st3 := { st2 with nRead := st2.nRead + 1 }
        match rr with
        | ReadRes.err Err.notConnected =>
          let r := rReconnLoop env fuel st3 (ReadRes.err Err.notConnected)
          (RAct.connect none :: RAct.read (ReadRes.err Err.notConnected) :: r.1, r.2)
        | _ => ([RAct.connect none, RAct.read rr, RAct.reset], st3, some (some rr))
    else ([], st1, some (some cur))

/-- The tail of one main-loop iteration of `Reader.loop`, operating on the
current read result: `ErrTypeClosed` returns; any other error or a nil
message goes through `Throttle.Retry()` and continues (or returns when the
throttle reports shutdown); a successful message calls `Throttle.Reset()`,
emits a transaction (returning if the shutdown channel fires first), waits
for its resolution (returning if the responses channel closes or shutdown
fires), and calls `Acknowledge` with the resolution error unless the
resolution is a nil error with SkipAck set.  The Bool result is `true` when
the loop continues. -/
def rProcess (env : REnv) (st : RSt) (rr : ReadRes) : List RAct × RSt × Bool :=
  match rr with
  | ReadRes.err Err.typeClosed => ([], st, false)
  | ReadRes.msg _ =>
    let tid := st.nEmit
    let delivered := env.emit tid
    let st1 := { st with nEmit := st.nEmit + 1 }
    if delivered then
      let r := env.resp st1.nResp
      let st2 := { st1 with nResp := st1.nResp + 1 }
      match r with
      | RespRes.res e skip =>
        if e ≠ none ∨ skip = false then
          ([RAct.reset, RAct.emit tid, RAct.await (RespRes.res e skip), RAct.ack e], st2, true)
        else
          ([RAct.reset, RAct.emit tid, RAct.await (RespRes.res e skip)], st2, true)
      | r' => ([RAct.reset, RAct.emit tid, RAct.await r'], st2, false)
    else ([RAct.reset], st1, false)
  | _ =>
    let ok := env.retry st.nRetry
    let st1 := { st with nRetry := st.nRetry + 1 }
    if ok then ([RAct.retryCall true], st1, true)
    else ([RAct.retryCall false], st1, false)

/-- Outcome of one main-loop iteration. -/
inductive IterOut where
  | cont
  | halt
  | fuelOut
  deriving DecidableEq

/-- One iteration of the main read loop of `Reader.loop`: check the running
flag (exiting the loop when it has dropped), `Read()`, divert to the
reconnect loop on `ErrNotConnected`, then process the resulting read result
with `rProcess`. -/
def rIter (env : REnv) (fuel : Nat) (st : RSt) : List RAct × RSt × IterOut :=
  let run := env.running st.nRun
  let st1 := { st with nRun := st.nRun + 1 }
  if run then
    let rr := env.read st1.nRead
    let st2 := { st1 with nRead := st1.nRead + 1 }
    match rr with
    | ReadRes.err Err.notConnected =>
      match rReconnLoop env fuel st2 (ReadRes.err Err.notConnected) with
      | (tr, st3, none) => (RAct.read (ReadRes.err Err.notConnected) :: tr, st3, IterOut.fuelOut)
      | (tr, st3, some none) => (RAct.read (ReadRes.err Err.notConnected) :: tr, st3, IterOut.halt)
      | (tr, st3, some (some rr')) =>
        let p := rProcess env st3 rr'
        (RAct.read (ReadRes.err Err.notConnected) :: tr ++ p.1, p.2.1,
          if p.2.2 then IterOut.cont else IterOut.halt)
    | _ =>
      let p := rProcess env st2 rr
      (RAct.read rr :: p.1, p.2.1, if p.2.2 then IterOut.cont else IterOut.halt)
  else ([], st1, IterOut.halt)

/-- The main read loop of `Reader.loop`: iterate `rIter` until it halts or
fuel runs out.  The `Option Unit` is `some ()` when the loop returned (so
the deferred close of the transactions channel runs) and `none` when fuel
ran out. -/
def rMainLoop (env : REnv) : Nat → RSt → List RAct × Option Unit
  | 0, _ => ([], none)
  | fuel+1, st =>
    match rIter env fuel st with
    | (tr, _, IterOut.fuelOut) => (tr, none)
    | (tr, _, IterOut.halt) => (tr, some ())
    | (tr, st', IterOut.cont) =>
      let r := rMainLoop env fuel st'
      (tr ++ r.1, r.2)

/-- A whole run of `Reader.loop`: the initial connect loop followed by the
main read loop; on return the deferred function closes the output
transactions channel (`closeTrans`).  The Bool is `true` when the loop
returned (and the channel was closed), `false` when fuel ran out. -/
def readerRun (env : REnv) (fuel : Nat) : List RAct × Bool :=
  match rConnectLoop env fuel initRSt with
  | (tr, _, none) => (tr, false)
  | (tr, _, some false) => (tr ++ [RAct.closeTrans], true)
  | (tr, st, some true) =>
    match rMainLoop env fuel st with
    | (tr2, none) => (tr ++ tr2, false)
    | (tr2, some _) => (tr ++ tr2 ++ [RAct.closeTrans], true)

/-- Result of the sync sink writer's wait on its inbound transactions
channel: a transaction arrived, the channel was closed, or the shutdown
channel fired first. -/
inductive WRecv where
  | tran
  | chanClosed
  | closeFired
  deriving DecidableEq

/-- Environment of the sync sink writer (`LineWriter.loop`), indexed by the
iteration number: the running-flag load, the inbound-channel wait, the write
result of `Fprintf` (`none` = success), and whether the resolution send on
the transaction's response channel was delivered (`false` means the
shutdown channel fired instead). -/
structure WEnv where
  running : Nat → Bool
  recv : Nat → WRecv
  write : Nat → Option Err
  send : Nat → Bool

/-- Observable actions of the sync sink writer: accepting an inbound
transaction, writing its payload with a result, and delivering its
resolution.  Transactions are identified by the iteration that accepted
them. -/
inductive WAct where
  | accept (tid : Nat)
  | write (tid : Nat) (r : Option Err)
  | resolve (tid : Nat) (r : Option Err)
  deriving DecidableEq

/-- The loop of `LineWriter.loop`: while the running flag holds, wait for an
inbound transaction (returning when the channel closes or shutdown fires),
write its payload, and send the write's error as the transaction's
resolution (returning, without resolving, when shutdown fires first).  The
Bool is `true` when the loop returned (so the deferred close of `closedChan`
ran and the stage reports closed), `false` when fuel ran out. -/
def wLoop (env : WEnv) : Nat → Nat → List WAct × Bool
  | 0, _ => ([], false)
  | fuel+1, i =>
    if env.running i then
      match env.recv i with
      | WRecv.chanClosed => ([], true)
      | WRecv.closeFired => ([], true)
      | WRecv.tran =>
        let r := env.write i
        if env.send i then
          let rest := wLoop env fuel (i+1)
          (WAct.accept i :: WAct.write i r :: WAct.resolve i r :: rest.1, rest.2)
        else ([WAct.accept i, WAct.write i r], true)
    else ([], true)

/-- A whole run of `LineWriter.loop` from its first iteration. -/
def writerRun (env : WEnv) (fuel : Nat) : List WAct × Bool := wLoop env fuel 0

/-- Number of resolutions delivered for transaction `t` in a writer trace. -/
def resolveCount (l : List WAct) (t : Nat) : Nat :=
  l.countP (fun a => match a with
    | WAct.resolve t' _ => t' = t
    | _ => false)

/-- Modelled from the spec: the Batcher's pending state (its accumulated
pending Parts in arrival order, and the originating transactions recorded
for later fan-out, each with the number of Parts it contributed).  The
Batcher implementation (`internal/old/output/batcher.go`) is not in the
source tree; only its tests are. -/
structure BatcherSt where
  pending : List Nat
  pendingTrans : List (Nat × Nat)
  deriving DecidableEq

/-- Modelled from the spec: a count-based release policy (the claims under
verification exercise only the count trigger of the Batch Policy). -/
structure BatcherCfg where
  count : Nat
  deriving DecidableEq

/-- Modelled from the spec: an outbound Transaction emitted by the Batcher,
wrapping the accumulated Batch together with the fan-out registry mapping
each originating transaction to the number of combined-batch Parts it
owns (its indices are consecutive, in arrival order). -/
structure Outbound where
  payload : List Nat
  origins : List (Nat × Nat)
  deriving DecidableEq

/-- Modelled from the spec: on each inbound Transaction the Batcher appends
its Parts to the pending Batch, records the originating transaction, and
checks the policy; when the count trigger fires it emits an outbound
Transaction wrapping the accumulated Batch and resets the pending state. -/
def batcherFeed (cfg : BatcherCfg) (st : BatcherSt) (tid : Nat) (parts : List Nat) :
    BatcherSt × Option Outbound :=
  let pending' := st.pending ++ parts
  let trans' := st.pendingTrans ++ [(tid, parts.length)]
  if cfg.count ≤ pending'.length then
    (⟨[], []⟩, some ⟨pending', trans'⟩)
  else (⟨pending', trans'⟩, none)

/-- Modelled from the spec: feeding a sequence of inbound Transactions to
the Batcher, collecting the outbound Transactions it emits in order. -/
def batcherFeedAll (cfg : BatcherCfg) (st : BatcherSt) :
    List (Nat × List Nat) → BatcherSt × List Outbound
  | [] => (st, [])
  | (tid, parts) :: rest =>
    match batcherFeed cfg st tid parts with
    | (st', none) => batcherFeedAll cfg st' rest
    | (st', some ob) =>
      let r := batcherFeedAll cfg st' rest
      (r.1, ob :: r.2)

/-- Modelled from the spec: on shutdown any non-empty pending batch is
flushed as a final (possibly undersized) emission before the Batcher
reports closed. -/
def batcherClose (st : BatcherSt) : List Outbound :=
  if st.pending.isEmpty then [] else [⟨st.pending, st.pendingTrans⟩]

/-- Modelled from the spec: a whole Batcher run — feed every inbound
Transaction, then shut down, flushing the pending batch; the result is
every outbound emission in order, the last ones being the shutdown flush,
after which the Batcher reports closed. -/
def batcherRunClose (cfg : BatcherCfg) (input : List (Nat × List Nat)) : List Outbound :=
  let r := batcherFeedAll cfg ⟨[], []⟩ input
  r.2 ++ batcherClose r.1

/-- Modelled from the spec: resolution of an outbound Transaction — full
success, a plain whole-batch error, or a BatchError listing failed Part
indices with their individual errors (unlisted indices implicitly
successful). -/
inductive Resolution where
  | ok
  | whole (e : Err)
  | batchErr (fails : List (Nat × Err))
  deriving DecidableEq

/-- The error a BatchError records for combined-batch index `i`, if any. -/
def lookupFail (fails : List (Nat × Err)) (i : Nat) : Option Err :=
  (fails.find? (fun p => p.1 = i)).map Prod.snd

/-- The first failure a BatchError records among the `cnt` combined-batch
indices starting at `off`, if any. -/
def firstFailIn (fails : List (Nat × Err)) (off cnt : Nat) : Option Err :=
  (List.range cnt).findSome? (fun j => lookupFail fails (off + j))

/-- Modelled from the spec: fan-out of a BatchError over the fan-out
registry — each originating transaction owns the consecutive indices
holding its Parts; one that owns a listed index is resolved with that
index's specific error, all others with nil. -/
def fanOutBatchErr (fails : List (Nat × Err)) : Nat → List (Nat × Nat) → List (Nat × Option Err)
  | _, [] => []
  | off, (tid, cnt) :: rest =>
    (tid, firstFailIn fails off cnt) :: fanOutBatchErr fails (off + cnt) rest

/-- Modelled from the spec: how the resolution of an outbound Transaction
is fanned back out to its originating transactions — nil resolves all of
them with nil, a plain error resolves all of them with that same error, and
a BatchError is mapped index-by-index. -/
def originResolution (origins : List (Nat × Nat)) : Resolution → List (Nat × Option Err)
  | Resolution.ok => origins.map (fun o => (o.1, none))
  | Resolution.whole e => origins.map (fun o => (o.1, some e))
  | Resolution.batchErr fails => fanOutBatchErr fails 0 origins

/-- `n` single-Part inbound Transactions, transaction `i` carrying the one
Part `p i`. -/
def singles (n : Nat) (p : Nat → Nat) : List (Nat × List Nat) :=
  (List.range n).map (fun i => (i, [p i]))

/-- Modelled from the spec: a Part's data — a byte payload, an ordered
mapping of string metadata keys to string values, and a lazily-cached
structured view.  The Part implementation (`lib/message/part.go`) is not in
the source tree; only its tests are. -/
structure PartData where
  bytes : List Nat
  meta : List (String × String)
  structured : Option String
  deriving DecidableEq

instance : Inhabited PartData := ⟨⟨[], [], none⟩⟩

/-- A store of live Parts; a Part handle is an index into the store.
Mutation of a Part through its handle is a store update, which makes the
copy-on-write guarantee a real statement rather than a vacuity of pure
values. -/
abbrev PartStore := List PartData

/-- The data a handle currently sees. -/
def readPart (s : PartStore) (h : Nat) : PartData := s.getD h default

/-- Update the Part at handle `h`. -/
def modifyPart (s : PartStore) (h : Nat) (f : PartData → PartData) : PartStore :=
  s.set h (f (readPart s h))

/-- Modelled from the spec: duplicating a Part for independent mutation —
the new handle initially sees the same bytes, metadata and cached view. -/
def copyPart (s : PartStore) (h : Nat) : PartStore × Nat :=
  (s ++ [readPart s h], s.length)

/-- Modelled from the spec: replace a Part's bytes; mutating a Part's bytes
invalidates its cached structured view. -/
def setBytes (s : PartStore) (h : Nat) (b : List Nat) : PartStore :=
  modifyPart s h (fun d => { d with bytes := b, structured := none })

/-- Modelled from the spec: set a metadata key to a value, keeping the
mapping ordered by first insertion. -/
def metaSet (s : PartStore) (h : Nat) (k v : String) : PartStore :=
  modifyPart s h (fun d =>
    { d with meta :=
        if d.meta.any (fun p => p.1 = k) then
          d.meta.map (fun p => if p.1 = k then (k, v) else p)
        else d.meta ++ [(k, v)] })

/-- Modelled from the spec: replace a Part's structured content, refreshing
its cached structured view. -/
def setStructured (s : PartStore) (h : Nat) (v : String) : PartStore :=
  modifyPart s h (fun d => { d with structured := some v })

/-- Whether a source-wrapper action is an adapter call reporting
`ErrTypeClosed` (from `Connect` or `Read`). -/
def isClosedRes : RAct → Bool
  | RAct.connect (some Err.typeClosed) => true
  | RAct.read (ReadRes.err Err.typeClosed) => true
  | _ => false

/-- Rendering of the resolution discipline claimed for pipeline stages,
instantiated at the sync sink writer: once the stage reports closed, every
transaction it accepted has been resolved exactly once. -/
def resolvedExactlyOnceOnClose (p : List WAct × Bool) : Prop :=
  p.2 = true → ∀ t, WAct.accept t ∈ p.1 → resolveCount p.1 t = 1

/-- Rendering of the claim that the sync source wrapper, after receiving a
transaction's resolution, always calls `Acknowledge` with the resolved
error before doing anything else: in the trace, every await of a resolution
is immediately followed by the matching `ack`. -/
def ackFollowsResolution (l : List RAct) : Prop :=
  ∀ pre e skip suf, l = pre ++ RAct.await (RespRes.res e skip) :: suf →
    suf.head? = some (RAct.ack e)

/-- Rendering of the claim that a timed-out `Read` is retried immediately,
with no reconnect and no throttle wait: in the trace, a read returning
`ErrTimeout` is followed directly by the next read (or by the end of the
run), never by a connect or a throttle call. -/
def timeoutRetriedImmediately (l : List RAct) : Prop :=
  ∀ pre suf, l = pre ++ RAct.read (ReadRes.err Err.timeout) :: suf →
    suf = [] ∨ suf.head? = some RAct.closeTrans ∨ ∃ rr, suf.head? = some (RAct.read rr)

/-- A source-wrapper environment in which the shutdown signal never fires:
the running flag always holds, the throttle never reports shutdown, every
emitted transaction is delivered, and every wait on the responses channel
yields a response. -/
def noShutdownREnv (env : REnv) : Prop :=
  (∀ i, env.running i = true) ∧ (∀ i, env.retry i = true) ∧
  (∀ i, env.emit i = true) ∧ (∀ i, ∃ e s, env.resp i = RespRes.res e s)

/-- A source-wrapper environment that connects at once and then times out on
every read. -/
def envTimeoutRead : REnv :=
  ⟨fun _ => true, fun _ => none, fun _ => ReadRes.err Err.timeout,
   fun _ => true, fun _ => true, fun _ => RespRes.res none false⟩

/-- A source-wrapper environment that connects at once, reads a message
every time, and resolves every transaction with a nil error and SkipAck
set. -/
def envSkipAck : REnv :=
  ⟨fun _ => true, fun _ => none, fun _ => ReadRes.msg 0,
   fun _ => true, fun _ => true, fun _ => RespRes.res none true⟩

/-- A source-wrapper environment that connects at once and then reports
`ErrTypeClosed` on the first read. -/
def envReadClosed : REnv :=
  ⟨fun _ => true, fun _ => none, fun _ => ReadRes.err Err.typeClosed,
   fun _ => true, fun _ => true, fun _ => RespRes.res none false⟩

/-- A sink-writer environment in which a transaction arrives and its write
succeeds, but the shutdown channel fires while the writer is delivering the
resolution. -/
def envAbortResolve : WEnv :=
  ⟨fun _ => true, fun _ => WRecv.tran, fun _ => none, fun _ => false⟩

/-- A sink-writer environment in which transactions keep arriving, writes
succeed, and every resolution is delivered. -/
def envWriterOk : WEnv :=
  ⟨fun _ => true, fun _ => WRecv.tran, fun _ => none, fun _ => true⟩

/-- Whether a source-wrapper action is an `Acknowledge` call. -/
def isAck : RAct → Bool
  | RAct.ack _ => true
  | _ => false

/-- Whether a source-wrapper action is the emission of a transaction on the
output channel. -/
def isEmit : RAct → Bool
  | RAct.emit _ => true
  | _ => false

/-- Whether a source-wrapper trace contains an adapter call reporting
`ErrTypeClosed`. -/
def containsClosed (l : List RAct) : Bool := l.any isClosedRes

/-- Rendering of the claim that a closed result is terminal: wherever an
adapter call reports `ErrTypeClosed` in a source-wrapper run, the wrapper
has returned (the run reports terminated) and the only things that follow
are the final `Throttle.Reset` of the reconnect break path (when the closed
result came from a read after reconnecting) and the closing of the output
transactions channel — in particular no retry and no further adapter
call. -/
def closedStops (p : List RAct × Bool) : Prop :=
  ∀ pre a suf, p.1 = pre ++ a :: suf → isClosedRes a = true →
    p.2 = true ∧ (suf = [RAct.closeTrans] ∨ suf = [RAct.reset, RAct.closeTrans])

/-- All Parts carried by a list of outbound Transactions, in emission
order. -/
def joinPayloads (l : List Outbound) : List Nat := (l.map Outbound.payload).flatten

/-- All Parts carried by a list of inbound Transactions, in arrival
order. -/
def joinParts (l : List (Nat × List Nat)) : List Nat := (l.map Prod.snd).flatten

/-- Where closed results can sit in a reconnect-loop trace: either none at
all (and the loop cannot hand a closed read result onwards), or the trace
ends with a closed `Connect` and the wrapper returns, or it ends with a
closed read of the reconnect break path (followed by its `Throttle.Reset`)
handed onwards as the loop's result. -/
def reconnClosedSpec (p : List RAct × RSt × Option (Option ReadRes)) : Prop :=
  (containsClosed p.1 = false ∧
    ∀ rr, p.2.2 = some (some rr) → rr ≠ ReadRes.err Err.typeClosed) ∨
  (∃ pre, p.1 = pre ++ [RAct.connect (some Err.typeClosed)] ∧
    containsClosed pre = false ∧ p.2.2 = some none) ∨
  (∃ pre, p.1 = pre ++ [RAct.connect none, RAct.read (ReadRes.err Err.typeClosed),
      RAct.reset] ∧
    containsClosed pre = false ∧ p.2.2 = some (some (ReadRes.err Err.typeClosed)))

/-- Where closed results can sit in a main-loop-iteration trace: either none
at all, or the iteration halts with the closed result as its last adapter
call, followed by at most the `Throttle.Reset` of the reconnect break
path. -/
def iterClosedSpec (p : List RAct × RSt × IterOut) : Prop :=
  containsClosed p.1 = false ∨
  (∃ pre a, p.1 = pre ++ [a] ∧ isClosedRes a = true ∧ containsClosed pre = false ∧
    p.2.2 = IterOut.halt) ∨
  (∃ pre a, p.1 = pre ++ [a, RAct.reset] ∧ isClosedRes a = true ∧
    containsClosed pre = false ∧ p.2.2 = IterOut.halt)

/-- Where closed results can sit in a main-loop trace: as for a single
iteration, with the loop returning. -/
def mainClosedSpec (p : List RAct × Option Unit) : Prop :=
  containsClosed p.1 = false ∨
  (∃ pre a, p.1 = pre ++ [a] ∧ isClosedRes a = true ∧ containsClosed pre = false ∧
    p.2 = some ()) ∨
  (∃ pre a, p.1 = pre ++ [a, RAct.reset] ∧ isClosedRes a = true ∧
    containsClosed pre = false ∧ p.2 = some ())

/-- Where closed results can sit in a whole source-wrapper run: either none,
or the run terminated and the closed result is the last adapter call, with
only (possibly) a `Throttle.Reset` and the closing of the output channel
after it. -/
def runClosedSpec (p : List RAct × Bool) : Prop :=
  containsClosed p.1 = false ∨
  (∃ pre a, p.1 = pre ++ [a, RAct.closeTrans] ∧ isClosedRes a = true ∧
    containsClosed pre = false ∧ p.2 = true) ∨
  (∃ pre a, p.1 = pre ++ [a, RAct.reset, RAct.closeTrans] ∧ isClosedRes a = true ∧
    containsClosed pre = false ∧ p.2 = true)

theorem readPart_append_lt (s : PartStore) (d : PartData) (h : Nat) (hlt : h < s.length) :
    readPart (s ++ [d]) h = readPart s h := by
  simp [readPart, List.getD, List.getElem?_append, hlt]

theorem readPart_append_self (s : PartStore) (d : PartData) :
    readPart (s ++ [d]) s.length = d := by
  simp [readPart, List.getD]

theorem readPart_set_ne (s : PartStore) (i j : Nat) (x : PartData) (hne : i ≠ j) :
    readPart (s.set i x) j = readPart s j := by
  simp [readPart, List.getD, List.getElem?_set_ne, hne]

/-- Claim C9: duplicating a Part and mutating the copy's bytes, structured
content, or metadata leaves the original unchanged, and mutating the
original leaves the copy unchanged. -/
theorem part_copy_air_gap (s : PartStore) (h : Nat) (hlt : h < s.length)
    (b : List Nat) (k v sv : String) :
    readPart (copyPart s h).1 (copyPart s h).2 = readPart s h ∧
    readPart (setBytes (copyPart s h).1 (copyPart s h).2 b) h = readPart s h ∧
    readPart (metaSet (copyPart s h).1 (copyPart s h).2 k v) h = readPart s h ∧
    readPart (setStructured (copyPart s h).1 (copyPart s h).2 sv) h = readPart s h ∧
    readPart (setBytes (copyPart s h).1 h b) (copyPart s h).2 =
      readPart (copyPart s h).1 (copyPart s h).2 ∧
    readPart (metaSet (copyPart s h).1 h k v) (copyPart s h).2 =
      readPart (copyPart s h).1 (copyPart s h).2 ∧
    readPart (setStructured (copyPart s h).1 h sv) (copyPart s h).2 =
      readPart (copyPart s h).1 (copyPart s h).2 := by
  have hne : h ≠ s.length := Nat.ne_of_lt hlt
  refine ⟨readPart_append_self s _, ?_, ?_, ?_, ?_, ?_, ?_⟩ <;>
    simp only [copyPart, setBytes, metaSet, setStructured, modifyPart] <;>
    first
      | (rw [readPart_set_ne _ _ _ _ (Ne.symm hne)]; exact readPart_append_lt s _ h hlt)
      | (rw [readPart_set_ne _ _ _ _ hne])

theorem part_copy_air_gap_witness :
    (0 : Nat) < ([⟨[1], [("foo", "bar")], none⟩] : PartStore).length ∧
    readPart (setBytes (copyPart [⟨[1], [("foo", "bar")], none⟩] 0).1
        (copyPart [⟨[1], [("foo", "bar")], none⟩] 0).2 [2]) 0 =
      readPart [⟨[1], [("foo", "bar")], none⟩] 0 :=
  ⟨by decide, (part_copy_air_gap [⟨[1], [("foo", "bar")], none⟩] 0 (by decide)
      [2] "foo" "baz" "sv").2.1⟩

theorem batcher_singles_aux (C : Nat) (p : Nat → Nat) :
    ∀ k j, j + k = C → 1 ≤ k →
      batcherFeedAll ⟨C⟩ ⟨(List.range j).map p, (List.range j).map (fun i => (i, 1))⟩
          ((List.range' j k).map (fun i => (i, [p i]))) =
        (⟨[], []⟩, [⟨(List.range C).map p, (List.range C).map (fun i => (i, 1))⟩]) := by
  intro k
  induction k with
  | zero => exact fun j _ h1 => absurd h1 (by omega)
  | succ k ih =>
    intro j hjk _
    rw [List.range'_succ, List.map_cons]
    simp only [batcherFeedAll, batcherFeed, List.length_append, List.length_map,
      List.length_range, List.length_cons, List.length_nil]
    rcases Nat.eq_zero_or_pos k with hk0 | hkpos
    · subst hk0
      simp only [if_pos (by omega : C ≤ j + 0 + 1)]
      have hr : List.range (j + 1) = List.range j ++ [j] := by
        simpa using List.range_succ (n := j)
      have hC' : C = j + 1 := by omega
      subst hC'
      simp [batcherFeedAll, hr]
    · simp only [if_neg (by omega : ¬ C ≤ j + 0 + 1)]
      have hr : List.range (j + 1) = List.range j ++ [j] := by
        simpa using List.range_succ (n := j)
      have := ih (j + 1) (by omega) (by omega)
      rw [hr] at this
      simpa using this

/-- Claim C5: a Batcher with count trigger `C`, fed `C` single-Part
transactions, emits exactly one outbound Transaction whose payload is
exactly those `C` Parts in arrival order (and resets its pending state). -/
theorem batcher_count_trigger (C : Nat) (p : Nat → Nat) (hC : 0 < C) :
    batcherFeedAll ⟨C⟩ ⟨[], []⟩ (singles C p) =
      (⟨[], []⟩, [⟨(List.range C).map p, (List.range C).map (fun i => (i, 1))⟩]) := by
  have h := batcher_singles_aux C p C 0 (by omega) (by omega)
  simpa [singles, List.range_eq_range'] using h

theorem batcher_count_trigger_witness :
    0 < 3 ∧
    batcherFeedAll ⟨3⟩ ⟨[], []⟩ (singles 3 (fun i => 10 + i)) =
      (⟨[], []⟩, [⟨[10, 11, 12], [(0, 1), (1, 1), (2, 1)]⟩]) :=
  ⟨by decide, by simpa using batcher_count_trigger 3 (fun i => 10 + i) (by decide)⟩

theorem firstFailIn_one (fails : List (Nat × Err)) (off : Nat) :
    firstFailIn fails off 1 = lookupFail fails off := by
  simp only [firstFailIn, List.range_succ, List.range_zero, List.nil_append]
  cases h : lookupFail fails off <;> simp [List.findSome?_cons, h]

theorem fanOut_singles_aux (fails : List (Nat × Err)) :
    ∀ n j, fanOutBatchErr fails j ((List.range' j n).map (fun i => (i, 1))) =
      (List.range' j n).map (fun i => (i, lookupFail fails i)) := by
  intro n
  induction n with
  | zero => intro j; simp [fanOutBatchErr]
  | succ n ih =>
    intro j
    rw [List.range'_succ, List.map_cons, List.map_cons]
    simp only [fanOutBatchErr, firstFailIn_one]
    exact congrArg _ (ih (j + 1))

/-- Claim C2: resolving the outbound Transaction that a Batcher built from
`N` single-Part transactions fans back out as follows — nil resolves every
original with nil, a plain error resolves every original with that same
error, and a BatchError resolves the original owning each listed index with
that index's specific error and every other original with nil. -/
theorem batcher_fanout (N : Nat) (p : Nat → Nat) (hN : 0 < N) (e : Err)
    (fails : List (Nat × Err)) :
    ∃ ob, (batcherFeedAll ⟨N⟩ ⟨[], []⟩ (singles N p)).2 = [ob] ∧
      originResolution ob.origins Resolution.ok =
        (List.range N).map (fun i => (i, (none : Option Err))) ∧
      originResolution ob.origins (Resolution.whole e) =
        (List.range N).map (fun i => (i, (some e : Option Err))) ∧
      originResolution ob.origins (Resolution.batchErr fails) =
        (List.range N).map (fun i => (i, lookupFail fails i)) := by
  refine ⟨⟨(List.range N).map p, (List.range N).map (fun i => (i, 1))⟩, ?_, ?_, ?_, ?_⟩
  · have h := batcher_singles_aux N p N 0 (by omega) (by omega)
    have h2 : batcherFeedAll ⟨N⟩ ⟨[], []⟩ (singles N p) =
        (⟨[], []⟩, [⟨(List.range N).map p, (List.range N).map (fun i => (i, 1))⟩]) := by
      simpa [singles, List.range_eq_range'] using h
    rw [h2]
  · simp [originResolution, List.map_map, Function.comp]
  · simp [originResolution, List.map_map, Function.comp]
  · simp only [originResolution, List.range_eq_range']
    exact fanOut_singles_aux fails N 0

theorem batcher_fanout_witness :
    0 < 3 ∧
    ∃ ob, (batcherFeedAll ⟨3⟩ ⟨[], []⟩ (singles 3 (fun i => 10 + i))).2 = [ob] ∧
      originResolution ob.origins Resolution.ok =
        (List.range 3).map (fun i => (i, (none : Option Err))) ∧
      originResolution ob.origins (Resolution.whole (Err.generic 7)) =
        (List.range 3).map (fun i => (i, (some (Err.generic 7) : Option Err))) ∧
      originResolution ob.origins (Resolution.batchErr [(1, Err.generic 5)]) =
        (List.range 3).map (fun i => (i, lookupFail [(1, Err.generic 5)] i)) :=
  ⟨by decide, batcher_fanout 3 (fun i => 10 + i) (by decide) (Err.generic 7)
    [(1, Err.generic 5)]⟩

theorem batcher_conservation_aux (cfg : BatcherCfg) :
    ∀ (input : List (Nat × List Nat)) (st : BatcherSt),
      joinPayloads ((batcherFeedAll cfg st input).2 ++
          batcherClose (batcherFeedAll cfg st input).1) =
        st.pending ++ joinParts input := by
  intro input
  induction input with
  | nil =>
    intro st
    rcases h : st.pending.isEmpty with hf | ht
    · simp [batcherFeedAll, batcherClose, joinPayloads, joinParts, h]
    · simp [batcherFeedAll, batcherClose, joinPayloads, joinParts, h,
        List.isEmpty_iff.mp h]
  | cons hd tl ih =>
    intro st
    obtain ⟨tid, parts⟩ := hd
    by_cases hc : cfg.count ≤ (st.pending ++ parts).length
    · simp only [batcherFeedAll, batcherFeed, if_pos hc, List.cons_append,
        joinPayloads, List.map_cons, List.flatten_cons]
      have h2 := ih ⟨[], []⟩
      simp only [joinPayloads] at h2
      rw [h2]
      simp [joinParts]
    · simp only [batcherFeedAll, batcherFeed, if_neg hc]
      have h2 := ih ⟨st.pending ++ parts, st.pendingTrans ++ [(tid, parts.length)]⟩
      rw [h2]
      simp [joinParts]

/-- Claim C6: a Batcher never loses pending Parts at shutdown — over a whole
run the Parts carried by all emissions (including the shutdown flush) are
exactly the Parts fed in, in order; and when the pending batch is non-empty
at shutdown (below the release threshold), it is emitted as a final,
possibly undersized, outbound Transaction before the Batcher reports
closed. -/
theorem batcher_close_flushes (cfg : BatcherCfg) (input : List (Nat × List Nat)) :
    joinPayloads (batcherRunClose cfg input) = joinParts input ∧
    (∀ st outs, batcherFeedAll cfg ⟨[], []⟩ input = (st, outs) → st.pending ≠ [] →
      batcherRunClose cfg input = outs ++ [⟨st.pending, st.pendingTrans⟩]) := by
  constructor
  · have h := batcher_conservation_aux cfg input ⟨[], []⟩
    simpa [batcherRunClose] using h
  · intro st outs hfeed hne
    simp [batcherRunClose, hfeed, batcherClose, List.isEmpty_iff, hne]

theorem batcher_close_flushes_witness :
    batcherFeedAll ⟨3⟩ ⟨[], []⟩ (singles 1 (fun _ => 9)) = (⟨[9], [(0, 1)]⟩, []) ∧
    ([9] : List Nat) ≠ [] ∧
    batcherRunClose ⟨3⟩ (singles 1 (fun _ => 9)) = [⟨[9], [(0, 1)]⟩] :=
  ⟨by decide, by decide,
    (batcher_close_flushes ⟨3⟩ (singles 1 (fun _ => 9))).2 ⟨[9], [(0, 1)]⟩ []
      (by decide) (by decide)⟩

theorem wLoop_low (env : WEnv) :
    ∀ fuel i t, t < i →
      WAct.accept t ∉ (wLoop env fuel i).1 ∧ resolveCount (wLoop env fuel i).1 t = 0 := by
  intro fuel
  induction fuel with
  | zero => intro i t _; simp [wLoop, resolveCount]
  | succ fuel ih =>
    intro i t ht
    rcases hrun : env.running i with _ | _
    · simp [wLoop, hrun, resolveCount]
    · rcases hrecv : env.recv i with _ | _ | _
      · rcases hsend : env.send i with _ | _
        · simp [wLoop, hrun, hrecv, hsend, resolveCount]
          omega
        · have hih := ih (i + 1) t (by omega)
          simp only [wLoop, hrun, hrecv, hsend, if_true, resolveCount] at *
          constructor
          · simp only [List.mem_cons]
            push_neg
            refine ⟨by simp; omega, by simp, by simp, hih.1⟩
          · simp only [List.countP_cons]
            have : (i = t) = False := by simp; omega
            simp [this, hih.2]
      · simp [wLoop, hrun, hrecv, resolveCount]
      · simp [wLoop, hrun, hrecv, resolveCount]

theorem wLoop_atMostOnce (env : WEnv) :
    ∀ fuel i t, resolveCount (wLoop env fuel i).1 t ≤ 1 := by
  intro fuel
  induction fuel with
  | zero => intro i t; simp [wLoop, resolveCount]
  | succ fuel ih =>
    intro i t
    rcases hrun : env.running i with _ | _
    · simp [wLoop, hrun, resolveCount]
    · rcases hrecv : env.recv i with _ | _ | _
      · rcases hsend : env.send i with _ | _
        · simp [wLoop, hrun, hrecv, hsend, resolveCount]
        · simp only [wLoop, hrun, hrecv, hsend, if_true, resolveCount, List.countP_cons]
          by_cases hti : t = i
          · subst hti
            have h0 := (wLoop_low env fuel (t + 1) t (by omega)).2
            simp only [resolveCount] at h0
            simp [h0]
          · have : (i = t) = False := by simp [Ne.symm hti]
            have hle := ih (i + 1) t
            simp only [resolveCount] at hle
            simp [this, hle]
      · simp [wLoop, hrun, hrecv, resolveCount]
      · simp [wLoop, hrun, hrecv, resolveCount]

theorem wLoop_exactOnce (env : WEnv) :
    ∀ fuel i t, WAct.accept t ∈ (wLoop env fuel i).1 → env.send t = true →
      resolveCount (wLoop env fuel i).1 t = 1 := by
  intro fuel
  induction fuel with
  | zero => intro i t h; simp [wLoop] at h
  | succ fuel ih =>
    intro i t hmem hsendt
    rcases hrun : env.running i with _ | _
    · simp [wLoop, hrun] at hmem
    · rcases hrecv : env.recv i with _ | _ | _
      · rcases hsend : env.send i with _ | _
        · simp only [wLoop, hrun, hrecv, hsend] at hmem
          simp at hmem
          obtain rfl : t = i := hmem
          rw [hsendt] at hsend
          exact absurd hsend (by simp)
        · simp only [wLoop, hrun, hrecv, hsend, if_true] at hmem ⊢
          by_cases hti : t = i
          · subst hti
            have h0 := (wLoop_low env fuel (t + 1) t (by omega)).2
            simp only [resolveCount] at h0 ⊢
            simp [List.countP_cons, h0]
          · have hmem' : WAct.accept t ∈ (wLoop env fuel (i + 1)).1 := by
              simp only [List.mem_cons] at hmem
              rcases hmem with h1 | h1 | h1 | h1
              · exact absurd h1 (by simp [hti])
              · exact absurd h1 (by simp)
              · exact absurd h1 (by simp)
              · exact h1
            have hr := ih (i + 1) t hmem' hsendt
            simp only [resolveCount, List.countP_cons] at hr ⊢
            have : (i = t) = False := by simp [Ne.symm hti]
            simp [this, hr]
      · simp [wLoop, hrun, hrecv] at hmem
      · simp [wLoop, hrun, hrecv] at hmem

theorem wLoop_head (env : WEnv) (fuel i : Nat) :
    (wLoop env fuel i).1 = [] ∨ ∃ tl, (wLoop env fuel i).1 = WAct.accept i :: tl := by
  cases fuel with
  | zero => simp [wLoop]
  | succ fuel =>
    rcases hrun : env.running i with _ | _
    · simp [wLoop, hrun]
    · rcases hrecv : env.recv i with _ | _ | _
      · rcases hsend : env.send i with _ | _
        · exact Or.inr ⟨[WAct.write i (env.write i)], by simp [wLoop, hrun, hrecv, hsend]⟩
        · exact Or.inr ⟨WAct.write i (env.write i) :: WAct.resolve i (env.write i) ::
            (wLoop env fuel (i + 1)).1, by simp [wLoop, hrun, hrecv, hsend]⟩
      · simp [wLoop, hrun, hrecv]
      · simp [wLoop, hrun, hrecv]

theorem wLoop_order (env : WEnv) :
    ∀ fuel i t, i ≤ t → WAct.accept (t + 1) ∈ (wLoop env fuel i).1 →
      ∃ pre suf, (wLoop env fuel i).1 =
        pre ++ [WAct.accept t, WAct.write t (env.write t),
          WAct.resolve t (env.write t), WAct.accept (t + 1)] ++ suf := by
  intro fuel
  induction fuel with
  | zero => intro i t _ h; simp [wLoop] at h
  | succ fuel ih =>
    intro i t hit hmem
    rcases hrun : env.running i with _ | _
    · simp [wLoop, hrun] at hmem
    · rcases hrecv : env.recv i with _ | _ | _
      · rcases hsend : env.send i with _ | _
        · simp only [wLoop, hrun, hrecv, hsend] at hmem
          simp at hmem
          omega
        · simp only [wLoop, hrun, hrecv, hsend, if_true] at hmem ⊢
          have hmem' : WAct.accept (t + 1) ∈ (wLoop env fuel (i + 1)).1 := by
            simp only [List.mem_cons] at hmem
            rcases hmem with h1 | h1 | h1 | h1
            · exact absurd h1 (by simp; omega)
            · exact absurd h1 (by simp)
            · exact absurd h1 (by simp)
            · exact h1
          by_cases hti : t = i
          · subst hti
            rcases wLoop_head env fuel (t + 1) with hnil | ⟨tl, htl⟩
            · rw [hnil] at hmem'; exact absurd hmem' (by simp)
            · rw [htl]
              exact ⟨[], tl, by simp⟩
          · have := ih (i + 1) t (by omega) hmem'
            obtain ⟨pre, suf, hps⟩ := this
            rw [hps]
            exact ⟨WAct.accept i :: WAct.write i (env.write i) ::
              WAct.resolve i (env.write i) :: pre, suf, by simp⟩
      · simp [wLoop, hrun, hrecv] at hmem
      · simp [wLoop, hrun, hrecv] at hmem

/-- Claim C1, counterexample: when the shutdown channel fires while the sync
sink writer is delivering a resolution, the writer returns and reports
closed with the transaction it accepted still unresolved — the claimed
exactly-once resolution before reporting closed fails on that path. -/
theorem writer_shutdown_abandons_resolution :
    ¬ resolvedExactlyOnceOnClose (writerRun envAbortResolve 1) := by
  intro h
  have h0 := h rfl 0 (by decide)
  have h1 : resolveCount (writerRun envAbortResolve 1).1 0 = 0 := by decide
  omega

/-- Claim C1 as amended: the sync sink writer never resolves an accepted
transaction more than once, and it resolves every accepted transaction
exactly once provided the shutdown signal does not interrupt that
transaction's resolution delivery; only a shutdown firing during delivery
can leave an accepted transaction unresolved. -/
theorem writer_resolves_exactly_once_unless_shutdown (env : WEnv) (fuel : Nat) :
    (∀ t, resolveCount (writerRun env fuel).1 t ≤ 1) ∧
    (∀ t, WAct.accept t ∈ (writerRun env fuel).1 → env.send t = true →
      resolveCount (writerRun env fuel).1 t = 1) :=
  ⟨fun t => wLoop_atMostOnce env fuel 0 t,
   fun t hmem hs => wLoop_exactOnce env fuel 0 t hmem hs⟩

theorem writer_resolves_exactly_once_unless_shutdown_witness :
    (WAct.accept 0 ∈ (writerRun envWriterOk 2).1 ∧ envWriterOk.send 0 = true) ∧
    resolveCount (writerRun envWriterOk 2).1 0 = 1 :=
  ⟨⟨by decide, rfl⟩,
    (writer_resolves_exactly_once_unless_shutdown envWriterOk 2).2 0 (by decide) rfl⟩

/-- Claim C8: for each inbound transaction the sync sink writer performs the
write, then resolves the transaction with the write's result, and only then
consumes the next inbound transaction: whenever transaction `t+1` is
accepted, the trace goes accept `t`, write `t` with the adapter's result,
resolve `t` with that same result, and only then accept `t+1`. -/
theorem writer_write_resolve_before_next (env : WEnv) (fuel t : Nat)
    (h : WAct.accept (t + 1) ∈ (writerRun env fuel).1) :
    ∃ pre suf, (writerRun env fuel).1 =
      pre ++ [WAct.accept t, WAct.write t (env.write t),
        WAct.resolve t (env.write t), WAct.accept (t + 1)] ++ suf :=
  wLoop_order env fuel 0 t (Nat.zero_le t) h

theorem writer_write_resolve_before_next_witness :
    WAct.accept 1 ∈ (writerRun envWriterOk 2).1 ∧
    ∃ pre suf, (writerRun envWriterOk 2).1 =
      pre ++ [WAct.accept 0, WAct.write 0 (envWriterOk.write 0),
        WAct.resolve 0 (envWriterOk.write 0), WAct.accept 1] ++ suf :=
  ⟨by decide, writer_write_resolve_before_next envWriterOk 2 0 (by decide)⟩

theorem rIter_msg (env : REnv) (fuel : Nat) (st : RSt) (id : Nat) (e : Option Err)
    (skip : Bool) (hrun : env.running st.nRun = true)
    (hread : env.read st.nRead = ReadRes.msg id)
    (hemit : env.emit st.nEmit = true) (hresp : env.resp st.nResp = RespRes.res e skip) :
    rIter env fuel st =
      ([RAct.read (ReadRes.msg id), RAct.reset, RAct.emit st.nEmit,
          RAct.await (RespRes.res e skip)] ++
        (if e ≠ none ∨ skip = false then [RAct.ack e] else []),
       { st with nRun := st.nRun + 1, nRead := st.nRead + 1,
                 nEmit := st.nEmit + 1, nResp := st.nResp + 1 },
       IterOut.cont) := by
  by_cases hc : e ≠ none ∨ skip = false
  · simp [rIter, hrun, hread, rProcess, hemit, hresp, hc]
  · simp [rIter, hrun, hread, rProcess, hemit, hresp, hc]

theorem rIter_timeout (env : REnv) (fuel : Nat) (st : RSt)
    (hrun : env.running st.nRun = true)
    (hread : env.read st.nRead = ReadRes.err Err.timeout) :
    rIter env fuel st =
      ([RAct.read (ReadRes.err Err.timeout), RAct.retryCall (env.retry st.nRetry)],
       { st with nRun := st.nRun + 1, nRead := st.nRead + 1, nRetry := st.nRetry + 1 },
       if env.retry st.nRetry then IterOut.cont else IterOut.halt) := by
  rcases hok : env.retry st.nRetry with _ | _ <;>
    simp [rIter, hrun, hread, rProcess, hok]

theorem rIter_headRead (env : REnv) (fuel : Nat) (st : RSt)
    (hrun : env.running st.nRun = true) :
    ((rIter env fuel st).1).head? = some (RAct.read (env.read st.nRead)) := by
  rcases hread : env.read st.nRead with id | _ | e
  · simp [rIter, hrun, hread]
  · simp [rIter, hrun, hread]
  · rcases e with _ | _ | _ | code
    · rcases hrl : rReconnLoop env fuel
          { st with nRun := st.nRun + 1, nRead := st.nRead + 1 }
          (ReadRes.err Err.notConnected) with ⟨tr, st3, o⟩
      rcases o with _ | o2
      · simp [rIter, hrun, hread, hrl]
      · rcases o2 with _ | rr' <;> simp [rIter, hrun, hread, hrl]
    · simp [rIter, hrun, hread]
    · simp [rIter, hrun, hread]
    · simp [rIter, hrun, hread]

/-- Claim C10: when an emitted transaction's resolution carries a nil error
with SkipAck set, the sync source wrapper calls no `Acknowledge` and the
loop proceeds directly to the next read; whenever the resolution carries a
non-nil error or SkipAck is unset, `Acknowledge` is called exactly once,
with the resolved error. -/
theorem reader_skipack_acknowledge (env : REnv) (fuel : Nat) (st : RSt) (id : Nat)
    (e : Option Err) (skip : Bool) (hrun : env.running st.nRun = true)
    (hread : env.read st.nRead = ReadRes.msg id)
    (hemit : env.emit st.nEmit = true) (hresp : env.resp st.nResp = RespRes.res e skip) :
    ((rIter env fuel st).1.countP isAck = if e = none ∧ skip = true then 0 else 1) ∧
    (∀ e', RAct.ack e' ∈ (rIter env fuel st).1 → e' = e) ∧
    (rIter env fuel st).2.2 = IterOut.cont ∧
    (∀ st2 : RSt, env.running st2.nRun = true →
      ((rIter env fuel st2).1).head? = some (RAct.read (env.read st2.nRead))) := by
  rw [rIter_msg env fuel st id e skip hrun hread hemit hresp]
  refine ⟨?_, ?_, rfl, fun st2 h2 => rIter_headRead env fuel st2 h2⟩
  · by_cases hc : e = none ∧ skip = true
    · have : ¬ (e ≠ none ∨ skip = false) := by simp [hc.1, hc.2]
      simp [this, hc, isAck]
    · have : e ≠ none ∨ skip = false := by
        rcases Decidable.not_and_iff_or_not.mp hc with h | h
        · exact Or.inl h
        · exact Or.inr (by simpa using h)
      simp [this, hc, isAck]
  · intro e' hmem
    by_cases hc : e ≠ none ∨ skip = false
    · simp [hc, isAck] at hmem
      exact hmem
    · simp [hc, isAck] at hmem

theorem reader_skipack_acknowledge_witness :
    (envSkipAck.running 0 = true ∧ envSkipAck.read 0 = ReadRes.msg 0 ∧
      envSkipAck.emit 0 = true ∧ envSkipAck.resp 0 = RespRes.res none true) ∧
    (rIter envSkipAck 1 initRSt).1.countP isAck = 0 ∧
    (rIter envSkipAck 1 initRSt).2.2 = IterOut.cont :=
  ⟨⟨rfl, rfl, rfl, rfl⟩,
   by
    have h := reader_skipack_acknowledge envSkipAck 1 initRSt 0 none true rfl rfl rfl rfl
    exact ⟨by simpa using h.1, h.2.2.1⟩⟩

/-- Claim C3, counterexample: with a resolution carrying a nil error and
SkipAck set, the sync source wrapper issues the next read without calling
`Acknowledge` at all, so the claimed unconditional Acknowledge-after-
resolution fails. -/
theorem reader_skipack_skips_acknowledge :
    ¬ ackFollowsResolution (readerRun envSkipAck 3).1 := by
  intro h
  have h1 := h
    [RAct.connect none, RAct.reset, RAct.read (ReadRes.msg 0), RAct.reset, RAct.emit 0]
    none true
    [RAct.read (ReadRes.msg 0), RAct.reset, RAct.emit 1, RAct.await (RespRes.res none true),
     RAct.read (ReadRes.msg 0), RAct.reset, RAct.emit 2, RAct.await (RespRes.res none true)]
    (by decide)
  simp at h1

/-- Claim C3 as amended: after every successful read (in an iteration the
shutdown signal does not interrupt), the sync source wrapper emits exactly
one transaction, then blocks awaiting its resolution, then calls
`Acknowledge` with the resolved error unless the resolution is a nil error
with SkipAck set, and only after that does the loop continue with the next
read. -/
theorem reader_serial_read_cycle (env : REnv) (fuel : Nat) (st : RSt) (id : Nat)
    (e : Option Err) (skip : Bool) (hrun : env.running st.nRun = true)
    (hread : env.read st.nRead = ReadRes.msg id)
    (hemit : env.emit st.nEmit = true) (hresp : env.resp st.nResp = RespRes.res e skip) :
    rIter env fuel st =
      ([RAct.read (ReadRes.msg id), RAct.reset, RAct.emit st.nEmit,
          RAct.await (RespRes.res e skip)] ++
        (if e ≠ none ∨ skip = false then [RAct.ack e] else []),
       { st with nRun := st.nRun + 1, nRead := st.nRead + 1,
                 nEmit := st.nEmit + 1, nResp := st.nResp + 1 },
       IterOut.cont) ∧
    (rIter env fuel st).1.countP isEmit = 1 ∧
    (∀ st2 : RSt, env.running st2.nRun = true →
      ((rIter env fuel st2).1).head? = some (RAct.read (env.read st2.nRead))) := by
  have heq := rIter_msg env fuel st id e skip hrun hread hemit hresp
  refine ⟨heq, ?_, fun st2 h2 => rIter_headRead env fuel st2 h2⟩
  rw [heq]
  by_cases hc : e ≠ none ∨ skip = false <;> simp [hc, isEmit]

theorem reader_serial_read_cycle_witness :
    rIter (REnv.mk (fun _ => true) (fun _ => none) (fun _ => ReadRes.msg 5)
        (fun _ => true) (fun _ => true) (fun _ => RespRes.res (some (Err.generic 2)) false))
        1 initRSt =
      ([RAct.read (ReadRes.msg 5), RAct.reset, RAct.emit 0,
          RAct.await (RespRes.res (some (Err.generic 2)) false), RAct.ack (some (Err.generic 2))],
       ⟨1, 0, 1, 0, 1, 1⟩, IterOut.cont) := by
  have h := (reader_serial_read_cycle
      (REnv.mk (fun _ => true) (fun _ => none) (fun _ => ReadRes.msg 5)
        (fun _ => true) (fun _ => true) (fun _ => RespRes.res (some (Err.generic 2)) false))
      1 initRSt 5 (some (Err.generic 2)) false rfl rfl rfl rfl).1
  simpa using h

/-- Claim C4, counterexample: a read returning `ErrTimeout` is followed by a
`Throttle.Retry` call before the read is retried, so the claimed
retry-without-any-throttle-backoff fails (the retry is indeed without
reconnecting, but it goes through the same throttle as other read
failures). -/
theorem reader_timeout_goes_through_throttle :
    ¬ timeoutRetriedImmediately (readerRun envTimeoutRead 3).1 := by
  intro h
  rcases h [RAct.connect none, RAct.reset]
      [RAct.retryCall true, RAct.read (ReadRes.err Err.timeout), RAct.retryCall true,
       RAct.read (ReadRes.err Err.timeout), RAct.retryCall true]
      (by decide) with h1 | h1 | ⟨rr, h1⟩ <;> simp at h1

/-- Claim C4 as amended: when a read returns `ErrTimeout` the sync source
wrapper does not reconnect — the iteration performs no `Connect` call and
consists of the timed-out read followed only by a `Throttle.Retry` call —
and when the throttle allows it the loop continues with an iteration that
begins directly with the retried read. -/
theorem reader_timeout_no_reconnect_but_throttled (env : REnv) (fuel : Nat) (st : RSt)
    (hrun : env.running st.nRun = true)
    (hread : env.read st.nRead = ReadRes.err Err.timeout) :
    rIter env fuel st =
      ([RAct.read (ReadRes.err Err.timeout), RAct.retryCall (env.retry st.nRetry)],
       { st with nRun := st.nRun + 1, nRead := st.nRead + 1, nRetry := st.nRetry + 1 },
       if env.retry st.nRetry then IterOut.cont else IterOut.halt) ∧
    (∀ st2 : RSt, env.running st2.nRun = true →
      ((rIter env fuel st2).1).head? = some (RAct.read (env.read st2.nRead))) :=
  ⟨rIter_timeout env fuel st hrun hread,
   fun st2 h2 => rIter_headRead env fuel st2 h2⟩

theorem reader_timeout_no_reconnect_but_throttled_witness :
    rIter envTimeoutRead 1 initRSt =
      ([RAct.read (ReadRes.err Err.timeout), RAct.retryCall true],
       ⟨1, 0, 1, 1, 0, 0⟩, IterOut.cont) := by
  have h := (reader_timeout_no_reconnect_but_throttled envTimeoutRead 1 initRSt rfl rfl).1
  simpa using h

theorem connLoop_char (env : REnv) :
    ∀ fuel st,
      containsClosed (rConnectLoop env fuel st).1 = false ∨
      (∃ pre, (rConnectLoop env fuel st).1 = pre ++ [RAct.connect (some Err.typeClosed)] ∧
        containsClosed pre = false ∧ (rConnectLoop env fuel st).2.2 = some false) := by
  intro fuel
  induction fuel with
  | zero => intro st; left; simp [rConnectLoop, containsClosed]
  | succ fuel ih =>
    intro st
    rcases hc : env.connect st.nConn with _ | e
    · left; simp [rConnectLoop, hc, containsClosed, isClosedRes]
    · rcases e with _ | _ | _ | code
      · rcases hok : env.retry st.nRetry with _ | _
        · left; simp [rConnectLoop, hc, hok, containsClosed, isClosedRes]
        · rcases ih { st with nConn := st.nConn + 1, nRetry := st.nRetry + 1 } with
            h1 | ⟨pre, hpre, hcc, ho⟩
          · left
            simp only [containsClosed] at h1 ⊢
            simp [rConnectLoop, hc, hok, isClosedRes, h1]
          · right
            refine ⟨RAct.connect (some Err.notConnected) :: RAct.retryCall true :: pre,
              ?_, ?_, ?_⟩
            · simp [rConnectLoop, hc, hok, hpre]
            · simp only [containsClosed] at hcc ⊢
              simp [isClosedRes, hcc]
            · simp [rConnectLoop, hc, hok, ho]
      · rcases hok : env.retry st.nRetry with _ | _
        · left; simp [rConnectLoop, hc, hok, containsClosed, isClosedRes]
        · rcases ih { st with nConn := st.nConn + 1, nRetry := st.nRetry + 1 } with
            h1 | ⟨pre, hpre, hcc, ho⟩
          · left
            simp only [containsClosed] at h1 ⊢
            simp [rConnectLoop, hc, hok, isClosedRes, h1]
          · right
            refine ⟨RAct.connect (some Err.timeout) :: RAct.retryCall true :: pre,
              ?_, ?_, ?_⟩
            · simp [rConnectLoop, hc, hok, hpre]
            · simp only [containsClosed] at hcc ⊢
              simp [isClosedRes, hcc]
            · simp [rConnectLoop, hc, hok, ho]
      · right
        exact ⟨[], by simp [rConnectLoop, hc], by simp [containsClosed],
          by simp [rConnectLoop, hc]⟩
      · rcases hok : env.retry st.nRetry with _ | _
        · left; simp [rConnectLoop, hc, hok, containsClosed, isClosedRes]
        · rcases ih { st with nConn := st.nConn + 1, nRetry := st.nRetry + 1 } with
            h1 | ⟨pre, hpre, hcc, ho⟩
          · left
            simp only [containsClosed] at h1 ⊢
            simp [rConnectLoop, hc, hok, isClosedRes, h1]
          · right
            refine ⟨RAct.connect (some (Err.generic code)) :: RAct.retryCall true :: pre,
              ?_, ?_, ?_⟩
            · simp [rConnectLoop, hc, hok, hpre]
            · simp only [containsClosed] at hcc ⊢
              simp [isClosedRes, hcc]
            · simp [rConnectLoop, hc, hok, ho]

theorem reconnClosedSpec_wrap (a1 a2 : RAct) (tr : List RAct) (st : RSt)
    (o : Option (Option ReadRes)) (h1 : isClosedRes a1 = false)
    (h2 : isClosedRes a2 = false) (h : reconnClosedSpec (tr, st, o)) :
    reconnClosedSpec (a1 :: a2 :: tr, st, o) := by
  rcases h with ⟨hcc, ho⟩ | ⟨pre, hpre, hcc, ho⟩ | ⟨pre, hpre, hcc, ho⟩
  · refine Or.inl ⟨?_, ho⟩
    simp only [containsClosed, List.any_cons, h1, h2, Bool.false_or]
    simpa [containsClosed] using hcc
  · refine Or.inr (Or.inl ⟨a1 :: a2 :: pre, ?_, ?_, ho⟩)
    · simpa using hpre
    · simp only [containsClosed, List.any_cons, h1, h2, Bool.false_or]
      simpa [containsClosed] using hcc
  · refine Or.inr (Or.inr ⟨a1 :: a2 :: pre, ?_, ?_, ho⟩)
    · simpa using hpre
    · simp only [containsClosed, List.any_cons, h1, h2, Bool.false_or]
      simpa [containsClosed] using hcc

theorem reconn_char (env : REnv) :
    ∀ fuel st cur, cur ≠ ReadRes.err Err.typeClosed →
      reconnClosedSpec (rReconnLoop env fuel st cur) := by
  intro fuel
  induction fuel with
  | zero =>
    intro st cur _
    refine Or.inl ⟨by simp [rReconnLoop, containsClosed], ?_⟩
    intro rr h
    simp [rReconnLoop] at h
  | succ fuel ih =>
    intro st cur hcur
    rcases hrun : env.running st.nRun with _ | _
    · refine Or.inl ⟨by simp [rReconnLoop, hrun, containsClosed], ?_⟩
      intro rr h hbad
      subst hbad
      simp [rReconnLoop, hrun] at h
      exact hcur h
    · rcases hc : env.connect st.nConn with _ | e
      · rcases hrr : env.read st.nRead with id | _ | e2
        · refine Or.inl ⟨by simp [rReconnLoop, hrun, hc, hrr, containsClosed, isClosedRes], ?_⟩
          intro rr h hbad
          subst hbad
          simp [rReconnLoop, hrun, hc, hrr] at h
        · refine Or.inl ⟨by simp [rReconnLoop, hrun, hc, hrr, containsClosed, isClosedRes], ?_⟩
          intro rr h hbad
          subst hbad
          simp [rReconnLoop, hrun, hc, hrr] at h
        · rcases e2 with _ | _ | _ | code
          · rcases hrec : rReconnLoop env fuel
                { st with nRun := st.nRun + 1, nConn := st.nConn + 1, nRead := st.nRead + 1 }
                (ReadRes.err Err.notConnected) with ⟨tr2, stA, o2⟩
            have hihr := ih
              { st with nRun := st.nRun + 1, nConn := st.nConn + 1, nRead := st.nRead + 1 }
              (ReadRes.err Err.notConnected) (by simp)
            rw [hrec] at hihr
            have hw := reconnClosedSpec_wrap (RAct.connect none)
              (RAct.read (ReadRes.err Err.notConnected)) tr2 stA o2
              (by simp [isClosedRes]) (by simp [isClosedRes]) hihr
            simp only [rReconnLoop, hrun, hc, hrr, hrec]
            simpa using hw
          · refine Or.inl ⟨by simp [rReconnLoop, hrun, hc, hrr, containsClosed, isClosedRes], ?_⟩
            intro rr h hbad
            subst hbad
            simp [rReconnLoop, hrun, hc, hrr] at h
          · refine Or.inr (Or.inr ⟨[], ?_, by simp [containsClosed], ?_⟩)
            · simp [rReconnLoop, hrun, hc, hrr]
            · simp [rReconnLoop, hrun, hc, hrr]
          · refine Or.inl ⟨by simp [rReconnLoop, hrun, hc, hrr, containsClosed, isClosedRes], ?_⟩
            intro rr h hbad
            subst hbad
            simp [rReconnLoop, hrun, hc, hrr] at h
      · rcases e with _ | _ | _ | code
        · rcases hok : env.retry st.nRetry with _ | _
          · refine Or.inl ⟨by simp [rReconnLoop, hrun, hc, hok, containsClosed, isClosedRes], ?_⟩
            intro rr h
            simp [rReconnLoop, hrun, hc, hok] at h
          · rcases hrec : rReconnLoop env fuel
                { st with nRun := st.nRun + 1, nConn := st.nConn + 1, nRetry := st.nRetry + 1 }
                (ReadRes.err Err.notConnected) with ⟨tr2, stA, o2⟩
            have hihr := ih
              { st with nRun := st.nRun + 1, nConn := st.nConn + 1, nRetry := st.nRetry + 1 }
              (ReadRes.err Err.notConnected) (by simp)
            rw [hrec] at hihr
            have hw := reconnClosedSpec_wrap (RAct.connect (some Err.notConnected))
              (RAct.retryCall true) tr2 stA o2
              (by simp [isClosedRes]) (by simp [isClosedRes]) hihr
            simp only [rReconnLoop, hrun, hc, hok, hrec]
            simpa using hw
        · rcases hok : env.retry st.nRetry with _ | _
          · refine Or.inl ⟨by simp [rReconnLoop, hrun, hc, hok, containsClosed, isClosedRes], ?_⟩
            intro rr h
            simp [rReconnLoop, hrun, hc, hok] at h
          · rcases hrec : rReconnLoop env fuel
                { st with nRun := st.nRun + 1, nConn := st.nConn + 1, nRetry := st.nRetry + 1 }
                (ReadRes.err Err.timeout) with ⟨tr2, stA, o2⟩
            have hihr := ih
              { st with nRun := st.nRun + 1, nConn := st.nConn + 1, nRetry := st.nRetry + 1 }
              (ReadRes.err Err.timeout) (by simp)
            rw [hrec] at hihr
            have hw := reconnClosedSpec_wrap (RAct.connect (some Err.timeout))
              (RAct.retryCall true) tr2 stA o2
              (by simp [isClosedRes]) (by simp [isClosedRes]) hihr
            simp only [rReconnLoop, hrun, hc, hok, hrec]
            simpa using hw
        · refine Or.inr (Or.inl ⟨[], ?_, by simp [containsClosed], ?_⟩)
          · simp [rReconnLoop, hrun, hc]
          · simp [rReconnLoop, hrun, hc]
        · rcases hok : env.retry st.nRetry with _ | _
          · refine Or.inl ⟨by simp [rReconnLoop, hrun, hc, hok, containsClosed, isClosedRes], ?_⟩
            intro rr h
            simp [rReconnLoop, hrun, hc, hok] at h
          · rcases hrec : rReconnLoop env fuel
                { st with nRun := st.nRun + 1, nConn := st.nConn + 1, nRetry := st.nRetry + 1 }
                (ReadRes.err (Err.generic code)) with ⟨tr2, stA, o2⟩
            have hihr := ih
              { st with nRun := st.nRun + 1, nConn := st.nConn + 1, nRetry := st.nRetry + 1 }
              (ReadRes.err (Err.generic code)) (by simp)
            rw [hrec] at hihr
            have hw := reconnClosedSpec_wrap (RAct.connect (some (Err.generic code)))
              (RAct.retryCall true) tr2 stA o2
              (by simp [isClosedRes]) (by simp [isClosedRes]) hihr
            simp only [rReconnLoop, hrun, hc, hok, hrec]
            simpa using hw

theorem rProcess_noClosed (env : REnv) (st : RSt) (rr : ReadRes) :
    containsClosed (rProcess env st rr).1 = false := by
  rcases rr with id | _ | e
  · rcases hd : env.emit st.nEmit with _ | _
    · simp [rProcess, hd, containsClosed, isClosedRes]
    · rcases hr : env.resp st.nResp with ⟨e, skip⟩ | _ | _
      · by_cases hcnd : e ≠ none ∨ skip = false <;>
          simp [rProcess, hd, hr, hcnd, containsClosed, isClosedRes]
      · simp [rProcess, hd, hr, containsClosed, isClosedRes]
      · simp [rProcess, hd, hr, containsClosed, isClosedRes]
  · rcases hok : env.retry st.nRetry with _ | _ <;>
      simp [rProcess, hok, containsClosed, isClosedRes]
  · rcases e with _ | _ | _ | code
    · rcases hok : env.retry st.nRetry with _ | _ <;>
        simp [rProcess, hok, containsClosed, isClosedRes]
    · rcases hok : env.retry st.nRetry with _ | _ <;>
        simp [rProcess, hok, containsClosed, isClosedRes]
    · simp [rProcess, containsClosed]
    · rcases hok : env.retry st.nRetry with _ | _ <;>
        simp [rProcess, hok, containsClosed, isClosedRes]

theorem rIter_char (env : REnv) (fuel : Nat) (st : RSt) :
    iterClosedSpec (rIter env fuel st) := by
  rcases hrun : env.running st.nRun with _ | _
  · left; simp [rIter, hrun, containsClosed]
  · rcases hrr : env.read st.nRead with id | _ | e2
    · have hp := rProcess_noClosed env
        { st with nRun := st.nRun + 1, nRead := st.nRead + 1 } (ReadRes.msg id)
      left
      simp only [containsClosed] at hp ⊢
      simp [rIter, hrun, hrr, isClosedRes, hp]
    · have hp := rProcess_noClosed env
        { st with nRun := st.nRun + 1, nRead := st.nRead + 1 } ReadRes.nilMsg
      left
      simp only [containsClosed] at hp ⊢
      simp [rIter, hrun, hrr, isClosedRes, hp]
    · rcases e2 with _ | _ | _ | code
      · rcases hrec : rReconnLoop env fuel
            { st with nRun := st.nRun + 1, nRead := st.nRead + 1 }
            (ReadRes.err Err.notConnected) with ⟨tr2, stA, o2⟩
        have hch := reconn_char env fuel
          { st with nRun := st.nRun + 1, nRead := st.nRead + 1 }
          (ReadRes.err Err.notConnected) (by simp)
        rw [hrec] at hch
        rcases o2 with _ | o3
        · rcases hch with ⟨hcc, _⟩ | ⟨pre, hpre, hcp, ho⟩ | ⟨pre, hpre, hcp, ho⟩
          · left
            simp only [containsClosed] at hcc ⊢
            simp [rIter, hrun, hrr, hrec, isClosedRes, hcc]
          · exact absurd ho (by simp)
          · exact absurd ho (by simp)
        · rcases o3 with _ | rr'
          · rcases hch with ⟨hcc, _⟩ | ⟨pre, hpre, hcp, ho⟩ | ⟨pre, hpre, hcp, ho⟩
            · left
              simp only [containsClosed] at hcc ⊢
              simp [rIter, hrun, hrr, hrec, isClosedRes, hcc]
            · refine Or.inr (Or.inl ⟨RAct.read (ReadRes.err Err.notConnected) :: pre,
                RAct.connect (some Err.typeClosed), ?_, by simp [isClosedRes], ?_, ?_⟩)
              · simp only at hpre
                simp [rIter, hrun, hrr, hrec, hpre]
              · simp only [containsClosed] at hcp ⊢
                simp [isClosedRes, hcp]
              · simp [rIter, hrun, hrr, hrec]
            · exact absurd ho (by simp)
          · rcases hch with ⟨hcc, hnc⟩ | ⟨pre, hpre, hcp, ho⟩ | ⟨pre, hpre, hcp, ho⟩
            · have hrr' : rr' ≠ ReadRes.err Err.typeClosed := hnc rr' rfl
              have hp := rProcess_noClosed env stA rr'
              left
              simp only [containsClosed] at hcc hp ⊢
              simp [rIter, hrun, hrr, hrec, isClosedRes, hcc, hp]
            · exact absurd ho (by simp)
            · have hrr' : rr' = ReadRes.err Err.typeClosed := by
                have := ho
                simp at this
                exact this
              subst hrr'
              refine Or.inr (Or.inr ⟨RAct.read (ReadRes.err Err.notConnected) ::
                (pre ++ [RAct.connect none]), RAct.read (ReadRes.err Err.typeClosed),
                ?_, by simp [isClosedRes], ?_, ?_⟩)
              · simp only at hpre
                simp [rIter, hrun, hrr, hrec, hpre, rProcess]
              · simp only [containsClosed] at hcp ⊢
                simp [isClosedRes, hcp]
              · simp [rIter, hrun, hrr, hrec, rProcess]
      · have hp := rProcess_noClosed env
          { st with nRun := st.nRun + 1, nRead := st.nRead + 1 } (ReadRes.err Err.timeout)
        left
        simp only [containsClosed] at hp ⊢
        simp [rIter, hrun, hrr, isClosedRes, hp]
      · refine Or.inr (Or.inl ⟨[], RAct.read (ReadRes.err Err.typeClosed),
          ?_, by simp [isClosedRes], by simp [containsClosed], ?_⟩)
        · simp [rIter, hrun, hrr, rProcess]
        · simp [rIter, hrun, hrr, rProcess]
      · have hp := rProcess_noClosed env
          { st with nRun := st.nRun + 1, nRead := st.nRead + 1 }
          (ReadRes.err (Err.generic code))
        left
        simp only [containsClosed] at hp ⊢
        simp [rIter, hrun, hrr, isClosedRes, hp]

theorem rMain_char (env : REnv) :
    ∀ fuel st, mainClosedSpec (rMainLoop env fuel st) := by
  intro fuel
  induction fuel with
  | zero => intro st; left; simp [rMainLoop, containsClosed]
  | succ fuel ih =>
    intro st
    rcases hit : rIter env fuel st with ⟨tr, stA, o⟩
    have hic := rIter_char env fuel st
    rw [hit] at hic
    rcases o with _ | _ | _
    · rcases hic with hcc | ⟨pre, a, hpre, hca, hcp, hout⟩ | ⟨pre, a, hpre, hca, hcp, hout⟩
      · rcases hrec : rMainLoop env fuel stA with ⟨tr2, o2⟩
        have him := ih stA
        rw [hrec] at him
        rcases him with hcc2 | ⟨pre, a, hpre2, hca, hcp, ho2⟩ | ⟨pre, a, hpre2, hca, hcp, ho2⟩
        · left
          simp only [containsClosed] at hcc hcc2 ⊢
          simp [rMainLoop, hit, hrec, hcc, hcc2]
        · refine Or.inr (Or.inl ⟨tr ++ pre, a, ?_, hca, ?_, ?_⟩)
          · simp only at hpre2
            simp [rMainLoop, hit, hrec, hpre2]
          · simp only [containsClosed] at hcc hcp ⊢
            simp [List.any_append, hcc, hcp]
          · simp [rMainLoop, hit, hrec, ho2]
        · refine Or.inr (Or.inr ⟨tr ++ pre, a, ?_, hca, ?_, ?_⟩)
          · simp only at hpre2
            simp [rMainLoop, hit, hrec, hpre2]
          · simp only [containsClosed] at hcc hcp ⊢
            simp [List.any_append, hcc, hcp]
          · simp [rMainLoop, hit, hrec, ho2]
      · exact absurd hout (by simp)
      · exact absurd hout (by simp)
    · rcases hic with hcc | ⟨pre, a, hpre, hca, hcp, _⟩ | ⟨pre, a, hpre, hca, hcp, _⟩
      · left
        simp only [containsClosed] at hcc ⊢
        simp [rMainLoop, hit, hcc]
      · refine Or.inr (Or.inl ⟨pre, a, ?_, hca, hcp, ?_⟩)
        · simp only at hpre
          simp [rMainLoop, hit, hpre]
        · simp [rMainLoop, hit]
      · refine Or.inr (Or.inr ⟨pre, a, ?_, hca, hcp, ?_⟩)
        · simp only at hpre
          simp [rMainLoop, hit, hpre]
        · simp [rMainLoop, hit]
    · rcases hic with hcc | ⟨pre, a, hpre, hca, hcp, hout⟩ | ⟨pre, a, hpre, hca, hcp, hout⟩
      · left
        simp only [containsClosed] at hcc ⊢
        simp [rMainLoop, hit, hcc]
      · exact absurd hout (by simp)
      · exact absurd hout (by simp)

theorem readerRun_char (env : REnv) (fuel : Nat) :
    runClosedSpec (readerRun env fuel) := by
  rcases hcl : rConnectLoop env fuel initRSt with ⟨tr, stA, o⟩
  have hcc := connLoop_char env fuel initRSt
  rw [hcl] at hcc
  rcases o with _ | b
  · rcases hcc with h1 | ⟨pre, _, _, ho⟩
    · left
      simp only [containsClosed] at h1 ⊢
      simp [readerRun, hcl, h1]
    · exact absurd ho (by simp)
  · rcases b with _ | _
    · rcases hcc with h1 | ⟨pre, hpre, hcp, _⟩
      · left
        simp only [containsClosed] at h1 ⊢
        simp [readerRun, hcl, h1, isClosedRes]
      · refine Or.inr (Or.inl ⟨pre, RAct.connect (some Err.typeClosed), ?_,
          by simp [isClosedRes], hcp, ?_⟩)
        · simp only at hpre
          simp [readerRun, hcl, hpre]
        · simp [readerRun, hcl]
    · rcases hcc with h1 | ⟨pre, _, _, ho⟩
      · rcases hm : rMainLoop env fuel stA with ⟨tr2, o2⟩
        have hmc := rMain_char env fuel stA
        rw [hm] at hmc
        rcases o2 with _ | u
        · rcases hmc with h2 | ⟨pre, a, _, _, _, ho2⟩ | ⟨pre, a, _, _, _, ho2⟩
          · left
            simp only [containsClosed] at h1 h2 ⊢
            simp [readerRun, hcl, hm, h1, h2]
          · exact absurd ho2 (by simp)
          · exact absurd ho2 (by simp)
        · rcases hmc with h2 | ⟨pre, a, hpre2, hca, hcp, _⟩ | ⟨pre, a, hpre2, hca, hcp, _⟩
          · left
            simp only [containsClosed] at h1 h2 ⊢
            simp [readerRun, hcl, hm, h1, h2, isClosedRes]
          · refine Or.inr (Or.inl ⟨tr ++ pre, a, ?_, hca, ?_, ?_⟩)
            · simp only at hpre2
              simp [readerRun, hcl, hm, hpre2]
            · simp only [containsClosed] at h1 hcp ⊢
              simp [List.any_append, h1, hcp]
            · simp [readerRun, hcl, hm]
          · refine Or.inr (Or.inr ⟨tr ++ pre, a, ?_, hca, ?_, ?_⟩)
            · simp only at hpre2
              simp [readerRun, hcl, hm, hpre2]
            · simp only [containsClosed] at h1 hcp ⊢
              simp [List.any_append, h1, hcp]
            · simp [readerRun, hcl, hm]
      · exact absurd ho (by simp)

theorem not_closed_of_cc_false {l : List RAct} {x : RAct}
    (h : containsClosed l = false) (hx : x ∈ l) : isClosedRes x = false := by
  simp only [containsClosed, List.any_eq_false] at h
  simpa using h x hx

theorem closed_decomp_core :
    ∀ (PRE : List RAct) (b : RAct) (TAIL pre suf : List RAct) (a : RAct),
      isClosedRes a = true → containsClosed PRE = false → containsClosed TAIL = false →
      PRE ++ b :: TAIL = pre ++ a :: suf → pre = PRE ∧ a = b ∧ suf = TAIL := by
  intro PRE
  induction PRE with
  | nil =>
    intro b TAIL pre suf a ha _ hTAIL heq
    cases pre with
    | nil =>
      simp only [List.nil_append] at heq
      exact ⟨rfl, (List.cons.inj heq).1.symm, (List.cons.inj heq).2.symm⟩
    | cons c pre' =>
      simp only [List.nil_append, List.cons_append] at heq
      obtain ⟨hbc, ht⟩ := List.cons.inj heq
      exfalso
      have hmem : a ∈ TAIL := by
        rw [ht]
        simp
      have := not_closed_of_cc_false hTAIL hmem
      rw [this] at ha
      exact absurd ha (by simp)
  | cons d PRE' ih =>
    intro b TAIL pre suf a ha hPRE hTAIL heq
    have hd : isClosedRes d = false := not_closed_of_cc_false hPRE (by simp)
    have hPRE' : containsClosed PRE' = false := by
      simp only [containsClosed, List.any_cons] at hPRE
      simp only [containsClosed]
      exact (Bool.or_eq_false_iff.mp hPRE).2
    cases pre with
    | nil =>
      simp only [List.cons_append, List.nil_append] at heq
      obtain ⟨had, _⟩ := List.cons.inj heq
      rw [had] at hd
      rw [hd] at ha
      exact absurd ha (by simp)
    | cons c pre' =>
      simp only [List.cons_append] at heq
      obtain ⟨hcd, ht⟩ := List.cons.inj heq
      obtain ⟨h1, h2, h3⟩ := ih b TAIL pre' suf a ha hPRE' hTAIL ht
      exact ⟨by rw [hcd, h1], h2, h3⟩

theorem cc_of_mem {l : List RAct} {x : RAct} (hx : x ∈ l) (h : isClosedRes x = true) :
    containsClosed l = true := by
  simp only [containsClosed, List.any_eq_true]
  exact ⟨x, hx, h⟩

theorem connLoop_term (env : REnv) (hretry : ∀ i, env.retry i = true) :
    ∀ fuel st, (rConnectLoop env fuel st).2.2 = some false →
      containsClosed (rConnectLoop env fuel st).1 = true := by
  intro fuel
  induction fuel with
  | zero => intro st h; simp [rConnectLoop] at h
  | succ fuel ih =>
    intro st h
    rcases hc : env.connect st.nConn with _ | e
    · simp [rConnectLoop, hc] at h
    · rcases e with _ | _ | _ | code
      · have hok := hretry st.nRetry
        simp only [rConnectLoop, hc, hok] at h ⊢
        simp only [if_true] at h ⊢
        have := ih _ h
        simp only [containsClosed] at this ⊢
        simp [isClosedRes, this]
      · have hok := hretry st.nRetry
        simp only [rConnectLoop, hc, hok] at h ⊢
        simp only [if_true] at h ⊢
        have := ih _ h
        simp only [containsClosed] at this ⊢
        simp [isClosedRes, this]
      · simp [rConnectLoop, hc, containsClosed, isClosedRes]
      · have hok := hretry st.nRetry
        simp only [rConnectLoop, hc, hok] at h ⊢
        simp only [if_true] at h ⊢
        have := ih _ h
        simp only [containsClosed] at this ⊢
        simp [isClosedRes, this]

theorem reconn_term (env : REnv) (hrun : ∀ i, env.running i = true)
    (hretry : ∀ i, env.retry i = true) :
    ∀ fuel st cur, (rReconnLoop env fuel st cur).2.2 = some none →
      containsClosed (rReconnLoop env fuel st cur).1 = true := by
  intro fuel
  induction fuel with
  | zero => intro st cur h; simp [rReconnLoop] at h
  | succ fuel ih =>
    intro st cur h
    have hr := hrun st.nRun
    rcases hc : env.connect st.nConn with _ | e
    · rcases hrr : env.read st.nRead with id | _ | e2
      · simp [rReconnLoop, hr, hc, hrr] at h
      · simp [rReconnLoop, hr, hc, hrr] at h
      · rcases e2 with _ | _ | _ | code
        · simp only [rReconnLoop, hr, hc, hrr] at h ⊢
          simp only [if_true] at h ⊢
          have := ih _ _ h
          simp only [containsClosed] at this ⊢
          simp [isClosedRes, this]
        · simp [rReconnLoop, hr, hc, hrr] at h
        · simp [rReconnLoop, hr, hc, hrr, containsClosed, isClosedRes]
        · simp [rReconnLoop, hr, hc, hrr] at h
    · rcases e with _ | _ | _ | code
      · have hok := hretry st.nRetry
        simp only [rReconnLoop, hr, hc, hok] at h ⊢
        simp only [if_true] at h ⊢
        have := ih _ _ h
        simp only [containsClosed] at this ⊢
        simp [isClosedRes, this]
      · have hok := hretry st.nRetry
        simp only [rReconnLoop, hr, hc, hok] at h ⊢
        simp only [if_true] at h ⊢
        have := ih _ _ h
        simp only [containsClosed] at this ⊢
        simp [isClosedRes, this]
      · simp [rReconnLoop, hr, hc, containsClosed, isClosedRes]
      · have hok := hretry st.nRetry
        simp only [rReconnLoop, hr, hc, hok] at h ⊢
        simp only [if_true] at h ⊢
        have := ih _ _ h
        simp only [containsClosed] at this ⊢
        simp [isClosedRes, this]

theorem reconn_exit_read (env : REnv) (hrun : ∀ i, env.running i = true)
    (hretry : ∀ i, env.retry i = true) :
    ∀ fuel st cur rr', (rReconnLoop env fuel st cur).2.2 = some (some rr') →
      RAct.read rr' ∈ (rReconnLoop env fuel st cur).1 := by
  intro fuel
  induction fuel with
  | zero => intro st cur rr' h; simp [rReconnLoop] at h
  | succ fuel ih =>
    intro st cur rr' h
    have hr := hrun st.nRun
    rcases hc : env.connect st.nConn with _ | e
    · rcases hrr : env.read st.nRead with id | _ | e2
      · simp only [rReconnLoop, hr, hc, hrr] at h ⊢
        simp at h
        simp [← h]
      · simp only [rReconnLoop, hr, hc, hrr] at h ⊢
        simp at h
        simp [← h]
      · rcases e2 with _ | _ | _ | code
        · simp only [rReconnLoop, hr, hc, hrr] at h ⊢
          simp only [if_true] at h ⊢
          have := ih _ _ _ h
          simp [this]
        · simp only [rReconnLoop, hr, hc, hrr] at h ⊢
          simp at h
          simp [← h]
        · simp only [rReconnLoop, hr, hc, hrr] at h ⊢
          simp at h
          simp [← h]
        · simp only [rReconnLoop, hr, hc, hrr] at h ⊢
          simp at h
          simp [← h]
    · rcases e with _ | _ | _ | code
      · have hok := hretry st.nRetry
        simp only [rReconnLoop, hr, hc, hok] at h ⊢
        simp only [if_true] at h ⊢
        have := ih _ _ _ h
        simp [this]
      · have hok := hretry st.nRetry
        simp only [rReconnLoop, hr, hc, hok] at h ⊢
        simp only [if_true] at h ⊢
        have := ih _ _ _ h
        simp [this]
      · simp [rReconnLoop, hr, hc] at h
      · have hok := hretry st.nRetry
        simp only [rReconnLoop, hr, hc, hok] at h ⊢
        simp only [if_true] at h ⊢
        have := ih _ _ _ h
        simp [this]

theorem rProcess_halt (env : REnv) (st : RSt) (rr : ReadRes)
    (hretry : ∀ i, env.retry i = true) (hemit : ∀ i, env.emit i = true)
    (hresp : ∀ i, ∃ e s, env.resp i = RespRes.res e s) :
    (rProcess env st rr).2.2 = false → rr = ReadRes.err Err.typeClosed := by
  intro h
  rcases rr with id | _ | e
  · exfalso
    obtain ⟨e, s, hrsp⟩ := hresp st.nResp
    by_cases hcnd : e ≠ none ∨ s = false <;>
      simp [rProcess, hemit st.nEmit, hrsp, hcnd] at h
  · exfalso
    simp [rProcess, hretry st.nRetry] at h
  · rcases e with _ | _ | _ | code
    · exfalso; simp [rProcess, hretry st.nRetry] at h
    · exfalso; simp [rProcess, hretry st.nRetry] at h
    · rfl
    · exfalso; simp [rProcess, hretry st.nRetry] at h

theorem rIter_halt (env : REnv) (fuel : Nat) (st : RSt)
    (hrun : ∀ i, env.running i = true) (hretry : ∀ i, env.retry i = true)
    (hemit : ∀ i, env.emit i = true)
    (hresp : ∀ i, ∃ e s, env.resp i = RespRes.res e s) :
    (rIter env fuel st).2.2 = IterOut.halt → containsClosed (rIter env fuel st).1 = true := by
  intro h
  have hr := hrun st.nRun
  rcases hrr : env.read st.nRead with id | _ | e2
  · exfalso
    obtain ⟨e, s, hrsp⟩ := hresp st.nResp
    by_cases hcnd : e ≠ none ∨ s = false <;>
      simp [rIter, hr, hrr, rProcess, hemit _, hrsp, hcnd] at h
  · exfalso
    simp [rIter, hr, hrr, rProcess, hretry _] at h
  · rcases e2 with _ | _ | _ | code
    · rcases hrec : rReconnLoop env fuel
          { st with nRun := st.nRun + 1, nRead := st.nRead + 1 }
          (ReadRes.err Err.notConnected) with ⟨tr2, stA, o2⟩
      rcases o2 with _ | o3
      · exfalso; simp [rIter, hr, hrr, hrec] at h
      · rcases o3 with _ | rr'
        · have := reconn_term env hrun hretry fuel
            { st with nRun := st.nRun + 1, nRead := st.nRead + 1 }
            (ReadRes.err Err.notConnected) (by rw [hrec])
          rw [hrec] at this
          simp only [containsClosed] at this ⊢
          simp [rIter, hr, hrr, hrec, isClosedRes, this]
        · have hhalt : (rProcess env stA rr').2.2 = false := by
            by_contra hcf
            have hcf' : (rProcess env stA rr').2.2 = true := by
              rcases hb : (rProcess env stA rr').2.2 with _ | _
              · exact absurd hb hcf
              · rfl
            simp [rIter, hr, hrr, hrec, hcf'] at h
          have hcl := rProcess_halt env stA rr' hretry hemit hresp hhalt
          subst hcl
          have hmem := reconn_exit_read env hrun hretry fuel
            { st with nRun := st.nRun + 1, nRead := st.nRead + 1 }
            (ReadRes.err Err.notConnected) (ReadRes.err Err.typeClosed) (by rw [hrec])
          rw [hrec] at hmem
          have hccm := cc_of_mem hmem (by simp [isClosedRes])
          simp only [containsClosed] at hccm ⊢
          simp [rIter, hr, hrr, hrec, isClosedRes, List.any_append, hccm]
    · exfalso
      simp [rIter, hr, hrr, rProcess, hretry _] at h
    · simp [rIter, hr, hrr, containsClosed, isClosedRes]
    · exfalso
      simp [rIter, hr, hrr, rProcess, hretry _] at h

theorem rMain_term (env : REnv) (hrun : ∀ i, env.running i = true)
    (hretry : ∀ i, env.retry i = true) (hemit : ∀ i, env.emit i = true)
    (hresp : ∀ i, ∃ e s, env.resp i = RespRes.res e s) :
    ∀ fuel st, (rMainLoop env fuel st).2 = some () →
      containsClosed (rMainLoop env fuel st).1 = true := by
  intro fuel
  induction fuel with
  | zero => intro st h; simp [rMainLoop] at h
  | succ fuel ih =>
    intro st h
    rcases hit : rIter env fuel st with ⟨tr, stA, o⟩
    rcases o with _ | _ | _
    · simp only [rMainLoop, hit] at h ⊢
      have := ih stA h
      simp only [containsClosed] at this ⊢
      simp [List.any_append, this]
    · have := rIter_halt env fuel st hrun hretry hemit hresp (by rw [hit])
      rw [hit] at this
      simp only [containsClosed] at this ⊢
      simp [rMainLoop, hit, this]
    · simp [rMainLoop, hit] at h

/-- Claim C7: an `ErrTypeClosed` result from the adapter's `Connect` or
`Read` terminates the sync source wrapper's loop permanently with no
further retry or adapter call — only the `Throttle.Reset` of the reconnect
break path and the closing of the output transactions channel may follow —
and, conversely, when no shutdown signal ever fires, the loop terminates
only upon a closed result. -/
theorem reader_closed_is_terminal (env : REnv) (fuel : Nat) :
    closedStops (readerRun env fuel) ∧
    (noShutdownREnv env → (readerRun env fuel).2 = true →
      containsClosed (readerRun env fuel).1 = true) := by
  constructor
  · intro pre a suf heq ha
    rcases readerRun_char env fuel with hcc | ⟨PRE, b, hP, hb, hcp, hterm⟩ |
        ⟨PRE, b, hP, hb, hcp, hterm⟩
    · exfalso
      have hmem : a ∈ (readerRun env fuel).1 := by rw [heq]; simp
      have hfalse := not_closed_of_cc_false hcc hmem
      rw [hfalse] at ha
      exact absurd ha (by simp)
    · have heq2 : PRE ++ b :: [RAct.closeTrans] = pre ++ a :: suf := by
        rw [← hP, ← heq]
      obtain ⟨_, _, h3⟩ := closed_decomp_core PRE b [RAct.closeTrans] pre suf a ha hcp
        (by simp [containsClosed, isClosedRes]) heq2
      exact ⟨hterm, Or.inl h3⟩
    · have heq2 : PRE ++ b :: [RAct.reset, RAct.closeTrans] = pre ++ a :: suf := by
        rw [← hP, ← heq]
      obtain ⟨_, _, h3⟩ := closed_decomp_core PRE b [RAct.reset, RAct.closeTrans] pre suf a
        ha hcp (by simp [containsClosed, isClosedRes]) heq2
      exact ⟨hterm, Or.inr h3⟩
  · rintro ⟨h1, h2, h3, h4⟩ hterm
    rcases hcl : rConnectLoop env fuel initRSt with ⟨tr, stA, o⟩
    rcases o with _ | b
    · simp [readerRun, hcl] at hterm
    · rcases b with _ | _
      · have hcc := connLoop_term env h2 fuel initRSt (by rw [hcl])
        rw [hcl] at hcc
        simp only [containsClosed] at hcc ⊢
        simp [readerRun, hcl, List.any_append, hcc]
      · rcases hm : rMainLoop env fuel stA with ⟨tr2, o2⟩
        rcases o2 with _ | u
        · simp [readerRun, hcl, hm] at hterm
        · have hcc := rMain_term env h1 h2 h3 h4 fuel stA (by rw [hm])
          rw [hm] at hcc
          simp only [containsClosed] at hcc ⊢
          simp [readerRun, hcl, hm, List.any_append, hcc]

theorem reader_closed_is_terminal_witness :
    closedStops (readerRun envReadClosed 2) ∧
    containsClosed (readerRun envReadClosed 2).1 = true :=
  ⟨(reader_closed_is_terminal envReadClosed 2).1,
   (reader_closed_is_terminal envReadClosed 2).2
     ⟨fun _ => rfl, fun _ => rfl, fun _ => rfl, fun _ => ⟨none, false, rfl⟩⟩ rfl⟩
